import Mathlib

/-!
A shallow embedding of the Mod Registry / Load-Order engine of
`src/mod_manager.py` (class `ModManager`), together with proofs of the
specified properties.

Modelling conventions:
* A mod record is the dictionary built in `install_mod_file` /
  `install_mod_folder` (keys `id, name, file_path, original_path, enabled,
  priority, type`).
* The in-memory registry `self.mods_data` is a `List ModRecord`.
* The managed mods folder is modelled as a list of named entries, each
  flagged complete or partially written (`Bool`: `true` = fully copied).
* Filesystem and persistence effects that can fail (`shutil.copy2`,
  `shutil.copytree`, `os.remove`/`shutil.rmtree`, `save_mods_data`) are
  parametrised by environment-chosen success booleans; a failed copy leaves
  a partially written destination entry, exactly the situation the spec's
  no-orphan clause is about.
* GUI plumbing (tree selection, confirmation dialogs) is dropped: the
  operations take the selected mod's display name directly, which is how the
  Python code identifies the target record.
-/

/-- The `type` field of a mod dictionary: `'file'` or `'folder'`. -/
inductive ModKind where
  | file
  | folder
deriving DecidableEq, Repr

/-- One entry of `self.mods_data`, the dictionary created in
`install_mod_file` / `install_mod_folder`. -/
structure ModRecord where
  id : Nat
  name : String
  file_path : String
  original_path : String
  enabled : Bool
  priority : Nat
  kind : ModKind
deriving DecidableEq, Repr

/-- The managed mods folder: entry name together with a completeness flag
(`false` = partially written payload left by a failed copy). -/
def Fs : Type := List (String × Bool)

instance : DecidableEq Fs := inferInstanceAs (DecidableEq (List (String × Bool)))

instance : Repr Fs := inferInstanceAs (Repr (List (String × Bool)))

/-- Create or overwrite an entry in the mods folder. -/
def fsPut (fs : Fs) (name : String) (complete : Bool) : Fs :=
  (name, complete) :: fs.filter (fun e => e.1 ≠ name)

/-- `os.path.exists` of an entry of the mods folder. -/
def fsHas (fs : Fs) (name : String) : Bool :=
  fs.any (fun e => e.1 = name)

/-- Delete an entry of the mods folder (`os.remove` / `shutil.rmtree`). -/
def fsDel (fs : Fs) (name : String) : Fs :=
  fs.filter (fun e => e.1 ≠ name)

/-- Look up an entry's completeness flag. -/
def fsGet (fs : Fs) (name : String) : Option Bool :=
  (fs.find? (fun e => e.1 = name)).map (fun e => e.2)

/-- The mutable state the registry operations touch: `self.mods_data` and
the contents of the configured mods folder. -/
structure MState where
  mods : List ModRecord
  fs : Fs
deriving DecidableEq, Repr

/-- How an operation terminates, as observable from the GUI shell:
normal completion, a `messagebox.showerror` raised from an `except` block,
silent return (no dialog, no mutation path taken), or an uncaught Python
exception propagating out of the handler. -/
inductive OpResult where
  | ok
  | errorDialog
  | silent
  | exn
deriving DecidableEq, Repr

/-- `os.path.basename`: the component after the final `/` (empty when the
path ends in `/`). -/
def basename (p : String) : String :=
  ⟨(p.data.reverse.takeWhile (fun c => c ≠ '/')).reverse⟩

/-- `os.path.splitext(...)[0]`: drop the extension after the final dot,
keeping leading dots (so `.bashrc` is returned whole). -/
def stripExt (s : String) : String :=
  let cs := s.data
  let lead := cs.takeWhile (fun c => c = '.')
  let rest := cs.drop lead.length
  let afterRev := rest.reverse.dropWhile (fun c => c ≠ '.')
  if afterRev = [] then s
  else ⟨lead ++ (afterRev.drop 1).reverse⟩

/-- The renumbering loop `for i, mod in enumerate(self.mods_data):
mod['priority'] = i`, starting from index `k`. -/
def renumberFrom : Nat → List ModRecord → List ModRecord
  | _, [] => []
  | k, m :: rest => { m with priority := k } :: renumberFrom (k + 1) rest

/-- Renumber every record's `priority` to its list index. -/
def renumber (l : List ModRecord) : List ModRecord :=
  renumberFrom 0 l

/-- The linear scan `for i, mod in enumerate(self.mods_data): if
mod['name'] == mod_name: ... break` — index of the first record with the
given display name. -/
def findIndexByName (mods : List ModRecord) (n : String) : Option Nat :=
  mods.findIdx? (fun m => m.name = n)

/-- The toggle loop of `toggle_mod`: flip `enabled` of the first record with
the given name, leave everything else alone. -/
def toggleFirst : List ModRecord → String → List ModRecord
  | [], _ => []
  | m :: rest, n =>
      if m.name = n then { m with enabled := !m.enabled } :: rest
      else m :: toggleFirst rest n

/-- The simultaneous assignment
`self.mods_data[i], self.mods_data[j] = self.mods_data[j], self.mods_data[i]`. -/
def swapAt (l : List ModRecord) (i j : Nat) : List ModRecord :=
  match l.get? i, l.get? j with
  | some a, some b => (l.set i b).set j a
  | _, _ => l

/-- The record dictionary built by `install_mod_file` for source `file_path`
when the registry currently holds `n` records. -/
def mkFileRecord (n : Nat) (file_path : String) : ModRecord :=
  { id := n
    name := stripExt (basename file_path)
    file_path := basename file_path
    original_path := file_path
    enabled := true
    priority := n
    kind := ModKind.file }

/-- The record dictionary built by `install_mod_folder`. -/
def mkFolderRecord (n : Nat) (folder_path : String) : ModRecord :=
  { id := n
    name := basename folder_path
    file_path := basename folder_path
    original_path := folder_path
    enabled := true
    priority := n
    kind := ModKind.folder }

/-- `install_mod_file` (mod_manager.py:730-758).  `shutil.copy2` overwrites
an existing destination; `copyOk = false` models a copy failing partway,
leaving a partially written destination file.  `saveOk = false` models
`save_mods_data` raising; the surrounding `try/except` shows an error
dialog, and the already-appended record stays in memory. -/
def install_mod_file (st : MState) (file_path : String) (copyOk saveOk : Bool) :
    MState × OpResult :=
  let filename := basename file_path
  let rec0 := mkFileRecord st.mods.length file_path
  if copyOk then
    let st1 : MState := { mods := st.mods ++ [rec0], fs := fsPut st.fs filename true }
    if saveOk then (st1, OpResult.ok) else (st1, OpResult.errorDialog)
  else
    ({ st with fs := fsPut st.fs filename false }, OpResult.errorDialog)

/-- `install_mod_folder` (mod_manager.py:760-787).  `shutil.copytree` raises
`FileExistsError` at once when the destination exists (nothing is copied);
otherwise `copyOk = false` leaves a partially copied destination tree. -/
def install_mod_folder (st : MState) (folder_path : String) (copyOk saveOk : Bool) :
    MState × OpResult :=
  let folder_name := basename folder_path
  let rec0 := mkFolderRecord st.mods.length folder_path
  if fsHas st.fs folder_name then (st, OpResult.errorDialog)
  else if copyOk then
    let st1 : MState := { mods := st.mods ++ [rec0], fs := fsPut st.fs folder_name true }
    if saveOk then (st1, OpResult.ok) else (st1, OpResult.errorDialog)
  else
    ({ st with fs := fsPut st.fs folder_name false }, OpResult.errorDialog)

/-- `remove_mod` (mod_manager.py:789-833), after the user confirmed the
dialog, with the selected mod's name passed in.  `deleteOk = false` models
`os.remove`/`shutil.rmtree` raising: the `except` shows an error dialog and
the registry record is never popped.  If the payload is already absent the
deletion is skipped and the record is still removed. -/
def remove_mod (st : MState) (mod_name : String) (deleteOk saveOk : Bool) :
    MState × OpResult :=
  match findIndexByName st.mods mod_name with
  | none => (st, OpResult.silent)
  | some i =>
      let m := st.mods.getD i (mkFileRecord 0 "")
      if fsHas st.fs m.file_path then
        if deleteOk then
          let st1 : MState :=
            { mods := renumber (st.mods.eraseIdx i), fs := fsDel st.fs m.file_path }
          if saveOk then (st1, OpResult.ok) else (st1, OpResult.errorDialog)
        else (st, OpResult.errorDialog)
      else
        let st1 : MState := { st with mods := renumber (st.mods.eraseIdx i) }
        if saveOk then (st1, OpResult.ok) else (st1, OpResult.errorDialog)

/-- `toggle_mod` (mod_manager.py:835-855) with the selected mod's name
passed in.  It always calls `save_mods_data` (raising uncaught if saving
fails), and its final status line reads the loop variable `mod`, which
raises `NameError` when the registry is empty. -/
def toggle_mod (st : MState) (mod_name : String) (saveOk : Bool) :
    MState × OpResult :=
  let st1 : MState := { st with mods := toggleFirst st.mods mod_name }
  if saveOk then
    match st1.mods with
    | [] => (st1, OpResult.exn)
    | _ :: _ => (st1, OpResult.ok)
  else (st1, OpResult.exn)

/-- `move_mod` (mod_manager.py:865-905) with the selected mod's name passed
in.  Out-of-bounds moves fall through silently; `save_mods_data` is not
wrapped in `try`, so a failed save propagates. -/
def move_mod (st : MState) (mod_name : String) (direction : Int) (saveOk : Bool) :
    MState × OpResult :=
  match findIndexByName st.mods mod_name with
  | none => (st, OpResult.silent)
  | some i =>
      let newIndex : Int := (i : Int) + direction
      if 0 ≤ newIndex ∧ newIndex < (st.mods.length : Int) then
        let st1 : MState :=
          { st with mods := renumber (swapAt st.mods i newIndex.toNat) }
        if saveOk then (st1, OpResult.ok) else (st1, OpResult.exn)
      else (st, OpResult.silent)

/-- `add_to_recent_paths` (mod_manager.py:101-111) restricted to its effect
on one `recent_paths[path_type]` list.  `pathExists` models
`os.path.exists(path)`; `max_recent_items = 10`. -/
def add_to_recent_paths (l : List String) (path : String) (pathExists : Bool) :
    List String :=
  if path ≠ "" ∧ pathExists then (path :: l.erase path).take 10
  else l

/-- One user-triggered mutating registry operation, with the
environment-chosen success of its filesystem and persistence effects. -/
inductive Op where
  | addFile (path : String) (copyOk saveOk : Bool)
  | addFolder (path : String) (copyOk saveOk : Bool)
  | remove (name : String) (deleteOk saveOk : Bool)
  | toggle (name : String) (saveOk : Bool)
  | move (name : String) (direction : Int) (saveOk : Bool)

/-- Run one operation, keeping the resulting state. -/
def applyOp (st : MState) : Op → MState
  | Op.addFile p c s => (install_mod_file st p c s).1
  | Op.addFolder p c s => (install_mod_folder st p c s).1
  | Op.remove n d s => (remove_mod st n d s).1
  | Op.toggle n s => (toggle_mod st n s).1
  | Op.move n dir s => (move_mod st n dir s).1

/-- The dense-permutation invariant: the multiset of `priority` values is
exactly `{0, …, N-1}` (`sorted(priorities) == range(len)`). -/
def densePerm (mods : List ModRecord) : Prop :=
  (mods.map ModRecord.priority).Perm (List.range mods.length)

instance (mods : List ModRecord) : Decidable (densePerm mods) :=
  inferInstanceAs (Decidable (List.Perm _ _))

/-- The stronger storage invariant the code actually maintains: each
record's `priority` equals its index in `self.mods_data`. -/
def prioEqIdx (mods : List ModRecord) : Prop :=
  mods.map ModRecord.priority = List.range mods.length

instance (mods : List ModRecord) : Decidable (prioEqIdx mods) :=
  inferInstanceAs (Decidable (_ = _))

/-- The view built by `refresh_mod_list` (mod_manager.py:907-920):
`sorted(self.mods_data, key=lambda x: x['priority'])` — Python's sort is
stable, so any stable sort by `priority` models it; insertion sort is. -/
def listView (mods : List ModRecord) : List ModRecord :=
  List.insertionSort (fun a b => a.priority ≤ b.priority) mods

/-! ### Persistence: the INI config store and the JSON mods store

`save_config` serializes each `recent_paths` list (truncated to
`max_recent_items`) and each `favorites` list by joining with `'|'`;
`load_config` splits on `'|'`, strips whitespace and drops empty pieces.
Paths are modelled as `List Char` in this layer so the split/join can be
reasoned about character by character. -/

/-- Python `'|'.join(words)`. -/
def joinBar : List (List Char) → List Char
  | [] => []
  | [w] => w
  | w :: ws => w ++ '|' :: joinBar ws

/-- Python `s.split('|')` (always returns at least one piece; an empty
string yields `[""]`). -/
def splitBar : List Char → List (List Char)
  | [] => [[]]
  | c :: rest =>
      match splitBar rest with
      | [] => [[]]
      | w :: ws => if c = '|' then [] :: w :: ws else (c :: w) :: ws

/-- Python `s.strip()`. -/
def pyStrip (l : List Char) : List Char :=
  ((l.dropWhile Char.isWhitespace).reverse.dropWhile Char.isWhitespace).reverse

/-- Serialization of one `recent_paths[key]` list by `save_config`
(mod_manager.py:74-75): truncate to 10 entries, join with `'|'`. -/
def saveRecentField (l : List (List Char)) : List Char :=
  joinBar (l.take 10)

/-- Parsing of one `RecentPaths` entry by `load_config`
(mod_manager.py:52-56): an empty stored string leaves the default `[]`;
otherwise split on `'|'`, strip each piece, drop empty pieces. -/
def loadRecentField (s : List Char) : List (List Char) :=
  if s = [] then []
  else ((splitBar s).map pyStrip).filter (fun w => w ≠ [])

/-- Serialization of one `favorites[key]` list by `save_config`
(mod_manager.py:78-80): join with `'|'`, no truncation. -/
def saveFavField (l : List (List Char)) : List Char :=
  joinBar l

/-- Parsing of one `Favorites` entry by `load_config`
(mod_manager.py:58-62). -/
def loadFavField (s : List Char) : List (List Char) :=
  if s = [] then []
  else ((splitBar s).map pyStrip).filter (fun w => w ≠ [])

/-! #### configparser value handling

`save_config` writes through `ConfigParser.set`, whose default
`BasicInterpolation.before_set` rejects any value containing a stray `'%'`
(one that survives removing the `'%%'` escapes and the `%(key)s`
references) with `ValueError`; `load_config` reads back through
`ConfigParser.get`, whose `before_get` expands `'%%'` to `'%'` and
`%(key)s` to the referenced option of the same section (up to
`MAX_INTERPOLATION_DEPTH = 10` nested levels), and raises
`InterpolationSyntaxError` on any other `'%'`.  `config.read` also strips
each stored value's surrounding whitespace, and a value containing a line
break never survives the line-oriented INI text verbatim (an unindented
continuation raises `ParsingError`; an indented one is re-joined with its
own stripping), which the model renders as a reload failure. -/

/-- Python `value.replace('%%', '')`: drop the escaped percent pairs,
scanning left to right. -/
def removeDoublePercent : List Char → List Char
  | [] => []
  | [c] => [c]
  | c :: c2 :: rest =>
      if c = '%' ∧ c2 = '%' then removeDoublePercent rest
      else c :: removeDoublePercent (c2 :: rest)

/-- Match configparser's `_KEYCRE` reference body: given the text following
`"%("`, return the nonempty key (no `')'` inside) and the text after the
closing `")s"`, or `none` when the pattern `%\(([^)]+)\)s` does not match
here. -/
def parseKeyRef (l : List Char) : Option (List Char × List Char) :=
  let key := l.takeWhile (fun c => c ≠ ')')
  let rest := l.dropWhile (fun c => c ≠ ')')
  if key = [] then none
  else
    match rest with
    | ')' :: 's' :: after => some (key, after)
    | _ => none

/-- Python `re.sub` of `_KEYCRE` with `''`: delete every `%(key)s`
reference, scanning left to right.  Structural fuel bounds the scan; every
recursive call consumes at least one character, so `gas = l.length`
(supplied by `removeKeyRefs`) never runs out. -/
def removeKeyRefsAux : Nat → List Char → List Char
  | 0, l => l
  | _ + 1, [] => []
  | gas + 1, c :: rest =>
      if c = '%' ∧ rest.head? = some '(' then
        match parseKeyRef rest.tail with
        | some (_, after) => removeKeyRefsAux gas after
        | none => c :: removeKeyRefsAux gas rest
      else c :: removeKeyRefsAux gas rest

/-- Delete every `%(key)s` reference from a value. -/
def removeKeyRefs (l : List Char) : List Char :=
  removeKeyRefsAux l.length l

/-- `BasicInterpolation.before_set`: a value may be stored iff no `'%'`
survives after removing the `'%%'` escapes and the `%(key)s` references;
otherwise `ConfigParser.set` raises `ValueError`. -/
def beforeSetOk (v : List Char) : Bool :=
  decide ('%' ∉ removeKeyRefs (removeDoublePercent v))

/-- Total length of the values of a section map (used to bound the
interpolation recursion). -/
def totalMapLen (map : List (List Char × List Char)) : Nat :=
  (map.map (fun kv => kv.2.length)).sum

/-- `BasicInterpolation._interpolate_some`: expand a raw value left to
right — `'%%'` yields `'%'`, `%(key)s` substitutes the section's
(lower-cased) option and recursively interpolates it when it contains
`'%'`, any other `'%'` is an `InterpolationSyntaxError` (`none`), a missing
referenced option an `InterpolationMissingOptionError` (`none`), and
nesting beyond depth 10 an `InterpolationDepthError` (`none`).  The first
argument is structural fuel: every recursive call consumes it once while
descending into a strictly shorter rest or into one of at most 9 nested
map values, so the generous gas chosen by `before_get` never runs out. -/
def interpSomeAux (map : List (List Char × List Char)) :
    Nat → Nat → List Char → Option (List Char)
  | 0, _, _ => none
  | _ + 1, _, [] => some []
  | gas + 1, depth, c :: rest =>
      if c = '%' then
        if rest.head? = some '%' then
          (interpSomeAux map gas depth rest.tail).map (fun t => '%' :: t)
        else if rest.head? = some '(' then
          match parseKeyRef rest.tail with
          | none => none
          | some (key, after) =>
              match List.lookup (key.map Char.toLower) map with
              | none => none
              | some v =>
                  if '%' ∈ v then
                    if depth + 1 > 10 then none
                    else
                      match interpSomeAux map gas (depth + 1) v,
                            interpSomeAux map gas depth after with
                      | some sub, some tail => some (sub ++ tail)
                      | _, _ => none
                  else (interpSomeAux map gas depth after).map (fun t => v ++ t)
        else none
      else (interpSomeAux map gas depth rest).map (fun t => c :: t)

/-- `BasicInterpolation.before_get` on one raw stored value, with the raw
values of its section as the reference map. -/
def before_get (map : List (List Char × List Char)) (v : List Char) :
    Option (List Char) :=
  interpSomeAux map ((v.length + totalMapLen map + 2) * 12) 1 v

/-- Whether a stored value survives the line-oriented INI text format
verbatim: it must contain no line break. -/
def lineSafe (v : List Char) : Bool :=
  decide ('\n' ∉ v) && decide ('\r' ∉ v)

/-- The path-catalog half of the manager's state: configured paths, recent
paths per kind, favorites per kind. -/
structure Catalog where
  game_path : List Char
  mods_folder : List Char
  recent_game : List (List Char)
  recent_mods : List (List Char)
  recent_files : List (List Char)
  fav_game : List (List Char)
  fav_mods : List (List Char)
deriving DecidableEq, Repr

/-- The values held by `modslayer_config.ini`, one per key written by
`save_config`. -/
structure ConfigStore where
  game_path : List Char
  mods_folder : List Char
  game_paths : List Char
  mods_paths : List Char
  files_paths : List Char
  game_favorites : List Char
  mods_favorites : List Char
deriving DecidableEq, Repr

/-- The raw values of the `Settings` section, as the interpolation map of
its `get` calls. -/
def settingsMap (s : ConfigStore) : List (List Char × List Char) :=
  [("game_path".data, s.game_path), ("mods_folder".data, s.mods_folder)]

/-- The raw values of the `RecentPaths` section. -/
def recentMap (s : ConfigStore) : List (List Char × List Char) :=
  [("game_paths".data, s.game_paths), ("mods_paths".data, s.mods_paths),
   ("files_paths".data, s.files_paths)]

/-- The raw values of the `Favorites` section. -/
def favMap (s : ConfigStore) : List (List Char × List Char) :=
  [("game_favorites".data, s.game_favorites),
   ("mods_favorites".data, s.mods_favorites)]

/-- `save_config` (mod_manager.py:64-83).  Every value is assigned through
`ConfigParser.set`, so `BasicInterpolation.before_set` must accept each
one; a stray `'%'` anywhere raises `ValueError` before the file is
written, leaving nothing persisted (`none`). -/
def save_config (c : Catalog) : Option ConfigStore :=
  if beforeSetOk c.game_path ∧ beforeSetOk c.mods_folder
      ∧ beforeSetOk (saveRecentField c.recent_game)
      ∧ beforeSetOk (saveRecentField c.recent_mods)
      ∧ beforeSetOk (saveRecentField c.recent_files)
      ∧ beforeSetOk (saveFavField c.fav_game)
      ∧ beforeSetOk (saveFavField c.fav_mods) then
    some { game_path := c.game_path
           mods_folder := c.mods_folder
           game_paths := saveRecentField c.recent_game
           mods_paths := saveRecentField c.recent_mods
           files_paths := saveRecentField c.recent_files
           game_favorites := saveFavField c.fav_game
           mods_favorites := saveFavField c.fav_mods }
  else none

/-- `config.read` of the written file: each single-line value is recovered
with its surrounding whitespace stripped; a value containing a line break
does not come back verbatim (unindented continuations raise
`ParsingError`, indented ones are re-joined differently), modelled as a
reload failure. -/
def parsedStore (s : ConfigStore) : Option ConfigStore :=
  if lineSafe s.game_path ∧ lineSafe s.mods_folder ∧ lineSafe s.game_paths
      ∧ lineSafe s.mods_paths ∧ lineSafe s.files_paths
      ∧ lineSafe s.game_favorites ∧ lineSafe s.mods_favorites then
    some { game_path := pyStrip s.game_path
           mods_folder := pyStrip s.mods_folder
           game_paths := pyStrip s.game_paths
           mods_paths := pyStrip s.mods_paths
           files_paths := pyStrip s.files_paths
           game_favorites := pyStrip s.game_favorites
           mods_favorites := pyStrip s.mods_favorites }
  else none

/-- `load_config` (mod_manager.py:43-62): parse the INI text, then fetch
every value through `config.get`, whose interpolation can itself fail; any
failure propagates out of `load_config` uncaught (`none`). -/
def load_config (s : ConfigStore) : Option Catalog :=
  match parsedStore s with
  | none => none
  | some ps =>
      match before_get (settingsMap ps) ps.game_path,
            before_get (settingsMap ps) ps.mods_folder,
            before_get (recentMap ps) ps.game_paths,
            before_get (recentMap ps) ps.mods_paths,
            before_get (recentMap ps) ps.files_paths,
            before_get (favMap ps) ps.game_favorites,
            before_get (favMap ps) ps.mods_favorites with
      | some gp, some mf, some rg, some rm, some rf, some fg, some fm =>
          some { game_path := gp
                 mods_folder := mf
                 recent_game := loadRecentField rg
                 recent_mods := loadRecentField rm
                 recent_files := loadRecentField rf
                 fav_game := loadFavField fg
                 fav_mods := loadFavField fm }
      | _, _, _, _, _, _, _ => none

/-- A JSON scalar as used by the mods store (mods_data.json holds a list of
flat objects with string / integer / boolean values). -/
inductive JVal where
  | jstr (s : String)
  | jnat (n : Nat)
  | jbool (b : Bool)
deriving DecidableEq, Repr

/-- The `'type'` value written for a record. -/
def kindStr : ModKind → String
  | ModKind.file => "file"
  | ModKind.folder => "folder"

/-- Parse a stored `'type'` value back. -/
def kindOfStr (s : String) : Option ModKind :=
  if s = "file" then some ModKind.file
  else if s = "folder" then some ModKind.folder
  else none

/-- The JSON object `json.dump` writes for one record of `mods_data`. -/
def encodeMod (m : ModRecord) : List (String × JVal) :=
  [("id", JVal.jnat m.id),
   ("name", JVal.jstr m.name),
   ("file_path", JVal.jstr m.file_path),
   ("original_path", JVal.jstr m.original_path),
   ("enabled", JVal.jbool m.enabled),
   ("priority", JVal.jnat m.priority),
   ("type", JVal.jstr (kindStr m.kind))]

/-- Reading one record's fields back out of the parsed JSON object, the way
the rest of the code accesses `mod['id']`, `mod['name']`, … . -/
def decodeMod (f : List (String × JVal)) : Option ModRecord :=
  match f.lookup "id", f.lookup "name", f.lookup "file_path",
        f.lookup "original_path", f.lookup "enabled", f.lookup "priority",
        f.lookup "type" with
  | some (JVal.jnat i), some (JVal.jstr n), some (JVal.jstr fp),
    some (JVal.jstr op), some (JVal.jbool en), some (JVal.jnat pr),
    some (JVal.jstr ty) =>
      match kindOfStr ty with
      | some k => some ⟨i, n, fp, op, en, pr, k⟩
      | none => none
  | _, _, _, _, _, _, _ => none

/-- `save_mods_data` (mod_manager.py:96-99): the JSON document written. -/
def save_mods_store (mods : List ModRecord) : List (List (String × JVal)) :=
  mods.map encodeMod

/-- `load_mods_data` (mod_manager.py:85-94) followed by field access:
recover the record list from the stored document. -/
def load_mods_store (doc : List (List (String × JVal))) : Option (List ModRecord) :=
  doc.mapM decodeMod

/-! ### Helper lemmas -/

theorem renumberFrom_map_priority (k : Nat) (l : List ModRecord) :
    (renumberFrom k l).map ModRecord.priority = List.range' k l.length := by
  induction l generalizing k with
  | nil => rfl
  | cons m rest ih => simp [renumberFrom, List.range', ih]

theorem renumberFrom_length (k : Nat) (l : List ModRecord) :
    (renumberFrom k l).length = l.length := by
  induction l generalizing k with
  | nil => rfl
  | cons m rest ih => simp [renumberFrom, ih]

theorem renumber_map_priority (l : List ModRecord) :
    (renumber l).map ModRecord.priority = List.range l.length := by
  rw [renumber, renumberFrom_map_priority, List.range_eq_range']

theorem renumber_length (l : List ModRecord) : (renumber l).length = l.length :=
  renumberFrom_length 0 l

theorem prioEqIdx_renumber (l : List ModRecord) : prioEqIdx (renumber l) := by
  rw [prioEqIdx, renumber_map_priority, renumber_length]

theorem renumberFrom_map_id (k : Nat) (l : List ModRecord) :
    (renumberFrom k l).map ModRecord.id = l.map ModRecord.id := by
  induction l generalizing k with
  | nil => rfl
  | cons m rest ih => simp [renumberFrom, ih]

theorem renumber_map_id (l : List ModRecord) :
    (renumber l).map ModRecord.id = l.map ModRecord.id :=
  renumberFrom_map_id 0 l

theorem toggleFirst_map_priority (l : List ModRecord) (n : String) :
    (toggleFirst l n).map ModRecord.priority = l.map ModRecord.priority := by
  induction l with
  | nil => rfl
  | cons m rest ih =>
      by_cases h : m.name = n <;> simp [toggleFirst, h, ih]

theorem toggleFirst_length (l : List ModRecord) (n : String) :
    (toggleFirst l n).length = l.length := by
  induction l with
  | nil => rfl
  | cons m rest ih =>
      by_cases h : m.name = n <;> simp [toggleFirst, h, ih]

theorem toggleFirst_of_no_match (l : List ModRecord) (n : String)
    (h : ∀ m ∈ l, m.name ≠ n) : toggleFirst l n = l := by
  induction l with
  | nil => rfl
  | cons m rest ih =>
      have hm : ¬ (m.name = n) := h m (List.mem_cons_self m rest)
      simp only [toggleFirst, if_neg hm]
      rw [ih (fun x hx => h x (List.mem_cons_of_mem m hx))]

theorem swapAt_length (l : List ModRecord) (i j : Nat) :
    (swapAt l i j).length = l.length := by
  unfold swapAt
  cases l.get? i <;> cases l.get? j <;> simp

theorem densePerm_renumber (l : List ModRecord) : densePerm (renumber l) := by
  rw [densePerm, renumber_map_priority, renumber_length]

theorem densePerm_append_new (l : List ModRecord) (r : ModRecord)
    (hp : r.priority = l.length) (h : densePerm l) : densePerm (l ++ [r]) := by
  rw [densePerm] at h ⊢
  have hlen : (l ++ [r]).length = l.length + 1 := by simp
  rw [hlen, List.range_succ, List.map_append]
  simp only [List.map_cons, List.map_nil, hp]
  exact h.append (List.Perm.refl _)

theorem prioEqIdx_append_new (l : List ModRecord) (r : ModRecord)
    (hp : r.priority = l.length) (h : prioEqIdx l) : prioEqIdx (l ++ [r]) := by
  rw [prioEqIdx] at h ⊢
  have hlen : (l ++ [r]).length = l.length + 1 := by simp
  rw [hlen, List.range_succ, List.map_append]
  simp only [List.map_cons, List.map_nil, hp, h]

theorem densePerm_toggleFirst (l : List ModRecord) (n : String)
    (h : densePerm l) : densePerm (toggleFirst l n) := by
  rw [densePerm, toggleFirst_map_priority, toggleFirst_length]
  exact h

theorem prioEqIdx_toggleFirst (l : List ModRecord) (n : String)
    (h : prioEqIdx l) : prioEqIdx (toggleFirst l n) := by
  rw [prioEqIdx, toggleFirst_map_priority, toggleFirst_length]
  exact h

theorem toggle_mod_fst (st : MState) (n : String) (s : Bool) :
    (toggle_mod st n s).1 = { st with mods := toggleFirst st.mods n } := by
  simp only [toggle_mod]
  split
  · split <;> rfl
  · rfl

theorem densePerm_applyOp (st : MState) (op : Op) (h : densePerm st.mods) :
    densePerm (applyOp st op).mods := by
  cases op with
  | addFile p c s =>
      simp only [applyOp, install_mod_file]
      split
      · split <;> exact densePerm_append_new _ _ rfl h
      · exact h
  | addFolder p c s =>
      simp only [applyOp, install_mod_folder]
      split
      · exact h
      · split
        · split <;> exact densePerm_append_new _ _ rfl h
        · exact h
  | remove n d s =>
      simp only [applyOp, remove_mod]
      split
      · exact h
      · split
        · split
          · split <;> exact densePerm_renumber _
          · exact h
        · split <;> exact densePerm_renumber _
  | toggle n s =>
      simp only [applyOp]
      rw [toggle_mod_fst]
      exact densePerm_toggleFirst _ _ h
  | move n dir s =>
      simp only [applyOp, move_mod]
      split
      · exact h
      · split
        · split <;> exact densePerm_renumber _
        · exact h

theorem prioEqIdx_applyOp (st : MState) (op : Op) (h : prioEqIdx st.mods) :
    prioEqIdx (applyOp st op).mods := by
  cases op with
  | addFile p c s =>
      simp only [applyOp, install_mod_file]
      split
      · split <;> exact prioEqIdx_append_new _ _ rfl h
      · exact h
  | addFolder p c s =>
      simp only [applyOp, install_mod_folder]
      split
      · exact h
      · split
        · split <;> exact prioEqIdx_append_new _ _ rfl h
        · exact h
  | remove n d s =>
      simp only [applyOp, remove_mod]
      split
      · exact h
      · split
        · split
          · split <;> exact prioEqIdx_renumber _
          · exact h
        · split <;> exact prioEqIdx_renumber _
  | toggle n s =>
      simp only [applyOp]
      rw [toggle_mod_fst]
      exact prioEqIdx_toggleFirst _ _ h
  | move n dir s =>
      simp only [applyOp, move_mod]
      split
      · exact h
      · split
        · split <;> exact prioEqIdx_renumber _
        · exact h

theorem listView_of_prioEqIdx (l : List ModRecord) (h : prioEqIdx l) :
    listView l = l := by
  apply List.Sorted.insertionSort_eq
  have hp : l.Pairwise (fun a b => a.priority < b.priority) := by
    have hr := List.pairwise_lt_range l.length
    rw [← h] at hr
    exact (List.pairwise_map).mp hr
  exact hp.imp (fun hab => Nat.le_of_lt hab)

/-! ### Claims -/

/-- C1: for every sequence of add/remove/move/toggle operations starting
from a registry whose priorities form a dense permutation, after each
operation (i.e. after any prefix of the sequence) the multiset of priority
values is exactly `{0, …, N-1}` for the current record count `N`. -/
theorem C1_dense_permutation_invariant (st : MState) (h : densePerm st.mods)
    (ops : List Op) : densePerm ((ops.foldl applyOp st).mods) := by
  induction ops generalizing st with
  | nil => exact h
  | cons op rest ih => exact ih _ (densePerm_applyOp st op h)

theorem C1_dense_permutation_invariant_witness :
    densePerm (MState.mk [] []).mods ∧
      densePerm (([Op.addFile "/s/a.zip" true true,
          Op.addFolder "/s/b" true true,
          Op.move "b" (-1) true,
          Op.toggle "a" true,
          Op.remove "a" true true].foldl applyOp (MState.mk [] [])).mods) :=
  ⟨by decide, C1_dense_permutation_invariant (MState.mk [] []) (by decide) _⟩

/-- C10: starting from a registry where each record's priority equals its
index in `self.mods_data`, every sequence of mutating operations preserves
this, and the sorted view built by `refresh_mod_list` coincides with the
storage order. -/
theorem C10_priority_equals_index (st : MState) (h : prioEqIdx st.mods)
    (ops : List Op) :
    prioEqIdx ((ops.foldl applyOp st).mods) ∧
      listView ((ops.foldl applyOp st).mods) = (ops.foldl applyOp st).mods := by
  have hp : prioEqIdx ((ops.foldl applyOp st).mods) := by
    induction ops generalizing st with
    | nil => exact h
    | cons op rest ih => exact ih _ (prioEqIdx_applyOp st op h)
  exact ⟨hp, listView_of_prioEqIdx _ hp⟩

theorem C10_priority_equals_index_witness :
    prioEqIdx (MState.mk [] []).mods ∧
      (prioEqIdx (([Op.addFile "/s/a.zip" true true,
            Op.addFolder "/s/b" true true,
            Op.move "b" (-1) true].foldl applyOp (MState.mk [] [])).mods) ∧
        listView (([Op.addFile "/s/a.zip" true true,
            Op.addFolder "/s/b" true true,
            Op.move "b" (-1) true].foldl applyOp (MState.mk [] [])).mods) =
          ([Op.addFile "/s/a.zip" true true,
            Op.addFolder "/s/b" true true,
            Op.move "b" (-1) true].foldl applyOp (MState.mk [] [])).mods) :=
  ⟨by decide, C10_priority_equals_index (MState.mk [] []) (by decide) _⟩

theorem take_ten_cons (q : String) (xs : List String) :
    (q :: xs.take 10).take 10 = (q :: xs).take 10 := by
  rw [List.take_succ_cons, List.take_succ_cons, List.take_take]
  rfl

theorem add_recent_foldl (ps : List String) (h : ps.Nodup)
    (hne : ∀ q ∈ ps, q ≠ "") :
    List.foldl (fun acc q => add_to_recent_paths acc q true) [] ps =
      ps.reverse.take 10 := by
  induction ps using List.reverseRecOn with
  | nil => rfl
  | append_singleton ps q ih =>
      obtain ⟨hps, -, hdisj⟩ := List.nodup_append.mp h
      have hq : q ∉ ps := fun hmem => hdisj hmem (List.mem_singleton_self q)
      have hqne : q ≠ "" := hne q (List.mem_append_right ps (List.mem_singleton_self q))
      rw [List.foldl_append,
        ih hps (fun x hx => hne x (List.mem_append_left [q] hx))]
      simp only [List.foldl_cons, List.foldl_nil]
      have hq' : q ∉ ps.reverse.take 10 := fun hmem =>
        hq (List.mem_reverse.mp ((List.take_sublist 10 ps.reverse).mem hmem))
      rw [add_to_recent_paths, if_pos ⟨hqne, rfl⟩, List.erase_of_not_mem hq',
        take_ten_cons, List.reverse_append]
      rfl

/-- C8: `add_to_recent_paths` on a duplicate-free recent list and an
existing path puts the path at the front, keeps exactly one occurrence of
it, caps the list at 10 entries and keeps it duplicate-free; repeatedly
inserting one path starting from an empty list yields `[path]`, and
inserting any sequence of distinct paths from an empty list retains the 10
most recent, most-recent-first. -/
theorem C8_recent_cap_and_dedup (l : List String) (p : String)
    (hnd : l.Nodup) (hp : p ≠ "") :
    (add_to_recent_paths l p true).head? = some p
    ∧ (add_to_recent_paths l p true).count p = 1
    ∧ (add_to_recent_paths l p true).length ≤ 10
    ∧ (add_to_recent_paths l p true).Nodup
    ∧ (∀ k : Nat, (fun acc => add_to_recent_paths acc p true)^[k + 1] [] = [p])
    ∧ (∀ ps : List String, ps.Nodup → (∀ q ∈ ps, q ≠ "") →
        List.foldl (fun acc q => add_to_recent_paths acc q true) [] ps =
          ps.reverse.take 10) := by
  have herase0 : (l.erase p).count p = 0 := by
    rw [List.count_erase_self]
    have h1 := (List.nodup_iff_count_le_one.mp hnd) p
    omega
  have hnotmem : p ∉ l.erase p := List.count_eq_zero.mp herase0
  have hr : add_to_recent_paths l p true = (p :: l.erase p).take 10 := by
    rw [add_to_recent_paths, if_pos ⟨hp, rfl⟩]
  refine ⟨?_, ?_, ?_, ?_, ?_, ?_⟩
  · rw [hr, List.take_succ_cons]
    rfl
  · rw [hr, List.take_succ_cons, List.count_cons_self]
    have hle : ((l.erase p).take 9).count p ≤ (l.erase p).count p :=
      (List.take_sublist 9 (l.erase p)).count_le p
    omega
  · rw [hr]
    exact List.length_take_le 10 _
  · rw [hr]
    refine (List.take_sublist 10 _).nodup (List.nodup_cons.mpr ⟨hnotmem, hnd.erase p⟩)
  · intro k
    induction k with
    | zero => simp [add_to_recent_paths, hp]
    | succ k ih =>
        rw [Function.iterate_succ_apply']
        rw [ih]
        simp [add_to_recent_paths, hp]
  · exact add_recent_foldl

theorem C8_recent_cap_and_dedup_witness :
    (["q", "r"] : List String).Nodup ∧ ("p" : String) ≠ ""
    ∧ ((add_to_recent_paths ["q", "r"] "p" true).head? = some "p"
      ∧ (add_to_recent_paths ["q", "r"] "p" true).count "p" = 1
      ∧ (add_to_recent_paths ["q", "r"] "p" true).length ≤ 10
      ∧ (add_to_recent_paths ["q", "r"] "p" true).Nodup
      ∧ (∀ k : Nat, (fun acc => add_to_recent_paths acc "p" true)^[k + 1] [] = ["p"])
      ∧ (∀ ps : List String, ps.Nodup → (∀ q ∈ ps, q ≠ "") →
          List.foldl (fun acc q => add_to_recent_paths acc q true) [] ps =
            ps.reverse.take 10)) :=
  ⟨by decide, by decide, C8_recent_cap_and_dedup ["q", "r"] "p" (by decide) (by decide)⟩

theorem findIndexByName_lt_length (mods : List ModRecord) (n : String) (i : Nat)
    (h : findIndexByName mods n = some i) : i < mods.length := by
  rw [findIndexByName] at h
  obtain ⟨hi, -, -⟩ := List.findIdx?_eq_some_iff_getElem.mp h
  exact hi

/-- C5: when the backing payload is already absent on disk, `remove_mod`
still deletes the registry record and reports success; when deleting a
present payload raises, the registry (and the whole state) is left intact. -/
theorem C5_idempotent_uninstall (st : MState) (n : String) (i : Nat)
    (hfind : findIndexByName st.mods n = some i) :
    (fsHas st.fs ((st.mods.getD i (mkFileRecord 0 "")).file_path) = false →
      ∀ d : Bool,
        (remove_mod st n d true).2 = OpResult.ok
        ∧ (remove_mod st n d true).1.mods.map ModRecord.id
            = (st.mods.eraseIdx i).map ModRecord.id
        ∧ (remove_mod st n d true).1.mods.length = st.mods.length - 1
        ∧ (remove_mod st n d true).1.fs = st.fs)
    ∧ (fsHas st.fs ((st.mods.getD i (mkFileRecord 0 "")).file_path) = true →
      ∀ s : Bool, remove_mod st n false s = (st, OpResult.errorDialog)) := by
  have hi : i < st.mods.length := findIndexByName_lt_length st.mods n i hfind
  constructor
  · intro hab d
    have h2 : (remove_mod st n d true).2 = OpResult.ok := by
      simp only [remove_mod, hfind, hab, Bool.false_eq_true, if_false, if_true]
    have hmods : (remove_mod st n d true).1.mods = renumber (st.mods.eraseIdx i) := by
      simp only [remove_mod, hfind, hab, Bool.false_eq_true, if_false, if_true]
    have hfs : (remove_mod st n d true).1.fs = st.fs := by
      simp only [remove_mod, hfind, hab, Bool.false_eq_true, if_false, if_true]
    refine ⟨h2, ?_, ?_, hfs⟩
    · rw [hmods, renumber_map_id]
    · rw [hmods, renumber_length, List.length_eraseIdx, if_pos hi]
  · intro hab s
    simp only [remove_mod, hfind, hab, Bool.false_eq_true, if_false, if_true]

theorem C5_idempotent_uninstall_witness :
    findIndexByName [(⟨0, "a", "a.zip", "s", true, 0, ModKind.file⟩ : ModRecord)] "a"
        = some 0
    ∧ fsHas ([] : Fs)
        (([(⟨0, "a", "a.zip", "s", true, 0, ModKind.file⟩ : ModRecord)].getD 0
            (mkFileRecord 0 "")).file_path) = false
    ∧ ((remove_mod (MState.mk [⟨0, "a", "a.zip", "s", true, 0, ModKind.file⟩] []) "a" true true).2
          = OpResult.ok
      ∧ (remove_mod (MState.mk [⟨0, "a", "a.zip", "s", true, 0, ModKind.file⟩] []) "a" true true).1.mods.map ModRecord.id
          = (([(⟨0, "a", "a.zip", "s", true, 0, ModKind.file⟩ : ModRecord)]).eraseIdx 0).map ModRecord.id
      ∧ (remove_mod (MState.mk [⟨0, "a", "a.zip", "s", true, 0, ModKind.file⟩] []) "a" true true).1.mods.length
          = ([(⟨0, "a", "a.zip", "s", true, 0, ModKind.file⟩ : ModRecord)]).length - 1
      ∧ (remove_mod (MState.mk [⟨0, "a", "a.zip", "s", true, 0, ModKind.file⟩] []) "a" true true).1.fs
          = ([] : Fs)) :=
  ⟨by decide, by decide,
    (C5_idempotent_uninstall (MState.mk [⟨0, "a", "a.zip", "s", true, 0, ModKind.file⟩] [])
      "a" 0 (by decide)).1 (by decide) true⟩

/-- C9 (corrected): a `remove_mod` whose target name matches no record
returns silently without touching the state and raises no error of any
kind; a `toggle_mod` with an absent target leaves the records unchanged and
re-persists them, completing normally on a non-empty registry and dying
with an (unrelated) `NameError` only on an empty one.  No `NotFoundError`
exists anywhere in the code. -/
theorem C9_not_found_amended (st : MState) (n : String)
    (h : ∀ m ∈ st.mods, m.name ≠ n) :
    (∀ d s : Bool, remove_mod st n d s = (st, OpResult.silent))
    ∧ (toggle_mod st n true).1 = st
    ∧ (st.mods = [] → (toggle_mod st n true).2 = OpResult.exn)
    ∧ (st.mods ≠ [] → (toggle_mod st n true).2 = OpResult.ok) := by
  have hnone : findIndexByName st.mods n = none := by
    rw [findIndexByName, List.findIdx?_eq_none_iff]
    intro m hm
    simpa using h m hm
  have htog : toggleFirst st.mods n = st.mods := toggleFirst_of_no_match st.mods n h
  refine ⟨?_, ?_, ?_, ?_⟩
  · intro d s
    simp only [remove_mod, hnone]
  · rw [toggle_mod_fst, htog]
  · intro he
    simp only [toggle_mod]
    rw [htog, he]
    simp
  · intro hne
    simp only [toggle_mod]
    rw [htog]
    cases hm : st.mods with
    | nil => exact absurd hm hne
    | cons a rest => simp

theorem C9_not_found_amended_witness :
    (∀ m ∈ (MState.mk [⟨0, "a", "a.zip", "s", true, 0, ModKind.file⟩] []).mods, m.name ≠ "zzz")
    ∧ ((∀ d s : Bool,
        remove_mod (MState.mk [⟨0, "a", "a.zip", "s", true, 0, ModKind.file⟩] []) "zzz" d s
          = (MState.mk [⟨0, "a", "a.zip", "s", true, 0, ModKind.file⟩] [], OpResult.silent))
      ∧ (toggle_mod (MState.mk [⟨0, "a", "a.zip", "s", true, 0, ModKind.file⟩] []) "zzz" true).1
          = MState.mk [⟨0, "a", "a.zip", "s", true, 0, ModKind.file⟩] []
      ∧ ((MState.mk [⟨0, "a", "a.zip", "s", true, 0, ModKind.file⟩] []).mods = [] →
          (toggle_mod (MState.mk [⟨0, "a", "a.zip", "s", true, 0, ModKind.file⟩] []) "zzz" true).2
            = OpResult.exn)
      ∧ ((MState.mk [⟨0, "a", "a.zip", "s", true, 0, ModKind.file⟩] []).mods ≠ [] →
          (toggle_mod (MState.mk [⟨0, "a", "a.zip", "s", true, 0, ModKind.file⟩] []) "zzz" true).2
            = OpResult.ok)) :=
  ⟨by decide,
    C9_not_found_amended (MState.mk [⟨0, "a", "a.zip", "s", true, 0, ModKind.file⟩] [])
      "zzz" (by decide)⟩

/-- C9 counterexample: with one installed mod, removing or toggling the
nonexistent name `"zzz"` does not fail with any error — `remove_mod`
silently does nothing and `toggle_mod` completes normally — refuting the
claim that these operations fail with `NotFoundError`. -/
theorem C9_counterexample :
    remove_mod (MState.mk [⟨0, "a", "a.zip", "s", true, 0, ModKind.file⟩] [("a.zip", true)])
        "zzz" true true
      = (MState.mk [⟨0, "a", "a.zip", "s", true, 0, ModKind.file⟩] [("a.zip", true)],
          OpResult.silent)
    ∧ (toggle_mod (MState.mk [⟨0, "a", "a.zip", "s", true, 0, ModKind.file⟩] [("a.zip", true)])
        "zzz" true).2 = OpResult.ok := by
  decide

theorem findIdx?_last_of_no_earlier (p : ModRecord → Bool) :
    ∀ (l : List ModRecord) (m : ModRecord), l.getLast? = some m →
      (∀ x ∈ l.dropLast, p x = false) → p m = true →
      l.findIdx? p = some (l.length - 1)
  | [], m, hlast, _, _ => by cases hlast
  | [a], m, hlast, _, hm => by
      have : a = m := by simpa using hlast
      subst this
      simp [List.findIdx?_cons, hm]
  | a :: b :: rest, m, hlast, hearl, hm => by
      have ha : p a = false := by
        apply hearl a
        rw [List.dropLast_cons_of_ne_nil (List.cons_ne_nil b rest)]
        exact List.mem_cons_self a _
      have hlast' : (b :: rest).getLast? = some m := by
        simpa using hlast
      have hearl' : ∀ x ∈ (b :: rest).dropLast, p x = false := by
        intro x hx
        apply hearl x
        rw [List.dropLast_cons_of_ne_nil (List.cons_ne_nil b rest)]
        exact List.mem_cons_of_mem a hx
      have ih := findIdx?_last_of_no_earlier p (b :: rest) m hlast' hearl' hm
      rw [List.findIdx?_cons, ha]
      simp only [Bool.false_eq_true, if_false, List.findIdx?_succ, ih]
      simp

theorem head_priority_zero (a : ModRecord) (rest : List ModRecord)
    (h : prioEqIdx (a :: rest)) : a.priority = 0 := by
  rw [prioEqIdx, List.map_cons, List.length_cons, List.range_succ_eq_map] at h
  exact (List.cons.injEq _ _ _ _ ▸ h).1

theorem getLast_priority (l : List ModRecord) (m : ModRecord)
    (h : prioEqIdx l) (hlast : l.getLast? = some m) :
    m.priority = l.length - 1 := by
  have hne : l ≠ [] := by
    intro he
    rw [he] at hlast
    cases hlast
  have hmap : (l.map ModRecord.priority).getLast? = some m.priority := by
    rw [List.getLast?_map, hlast]
    rfl
  rw [prioEqIdx] at h
  rw [h] at hmap
  obtain ⟨k, hk⟩ := Nat.exists_eq_add_of_lt (Nat.pos_of_ne_zero
    (fun h0 => hne (List.length_eq_zero.mp h0)))
  have hlen : l.length = l.length - 1 + 1 := by omega
  rw [hlen, List.range_succ, List.getLast?_concat] at hmap
  exact (Option.some.injEq _ _ ▸ hmap).symm ▸ rfl

/-- C7 (corrected): when each record's priority equals its storage index —
the state the code maintains — moving the priority-0 record up is a silent
no-op, and moving the maximum-priority record down is a silent no-op
provided no earlier record shares its display name (the code resolves the
target by first name match).  The whole state, registry and mods folder, is
left unchanged. -/
theorem C7_move_boundary_amended (st : MState) (h : prioEqIdx st.mods) (so : Bool) :
    (∀ m, st.mods.head? = some m →
      m.priority = 0 ∧ move_mod st m.name (-1) so = (st, OpResult.silent))
    ∧ (∀ m, st.mods.getLast? = some m →
      (∀ x ∈ st.mods.dropLast, x.name ≠ m.name) →
      m.priority = st.mods.length - 1
      ∧ move_mod st m.name 1 so = (st, OpResult.silent)) := by
  constructor
  · intro m hm
    cases hms : st.mods with
    | nil => rw [hms] at hm; cases hm
    | cons a rest =>
        rw [hms] at hm
        have hma : m = a := by
          have := hm
          simp only [List.head?_cons, Option.some.injEq] at this
          exact this.symm
        subst hma
        have hpr : m.priority = 0 := head_priority_zero m rest (hms ▸ h)
        refine ⟨hpr, ?_⟩
        have hfind : findIndexByName st.mods m.name = some 0 := by
          rw [hms, findIndexByName, List.findIdx?_cons]
          simp
        simp only [move_mod, hfind]
        split
        · next hcond => exfalso; omega
        · rfl
  · intro m hlast hearl
    have hpr := getLast_priority st.mods m h hlast
    refine ⟨hpr, ?_⟩
    have hfind : findIndexByName st.mods m.name = some (st.mods.length - 1) := by
      rw [findIndexByName]
      apply findIdx?_last_of_no_earlier _ st.mods m hlast ?_ (by simp)
      intro x hx
      simpa using hearl x hx
    have hne : st.mods ≠ [] := fun he => by rw [he] at hlast; cases hlast
    have hlen : 1 ≤ st.mods.length := List.length_pos.mpr hne
    simp only [move_mod, hfind]
    split
    · next hcond => exfalso; omega
    · rfl

theorem C7_move_boundary_amended_witness :
    prioEqIdx (MState.mk [⟨0, "a", "a.zip", "sa", true, 0, ModKind.file⟩,
        ⟨1, "b", "b.zip", "sb", true, 1, ModKind.file⟩] []).mods
    ∧ (MState.mk [⟨0, "a", "a.zip", "sa", true, 0, ModKind.file⟩,
        ⟨1, "b", "b.zip", "sb", true, 1, ModKind.file⟩] []).mods.head?
        = some ⟨0, "a", "a.zip", "sa", true, 0, ModKind.file⟩
    ∧ ((⟨0, "a", "a.zip", "sa", true, 0, ModKind.file⟩ : ModRecord).priority = 0
      ∧ move_mod (MState.mk [⟨0, "a", "a.zip", "sa", true, 0, ModKind.file⟩,
          ⟨1, "b", "b.zip", "sb", true, 1, ModKind.file⟩] [])
          (ModRecord.name ⟨0, "a", "a.zip", "sa", true, 0, ModKind.file⟩) (-1) true
        = (MState.mk [⟨0, "a", "a.zip", "sa", true, 0, ModKind.file⟩,
            ⟨1, "b", "b.zip", "sb", true, 1, ModKind.file⟩] [], OpResult.silent)) :=
  ⟨by decide, by decide,
    (C7_move_boundary_amended (MState.mk [⟨0, "a", "a.zip", "sa", true, 0, ModKind.file⟩,
        ⟨1, "b", "b.zip", "sb", true, 1, ModKind.file⟩] []) (by decide) true).1
      ⟨0, "a", "a.zip", "sa", true, 0, ModKind.file⟩ (by decide)⟩

/-- C7 counterexample: in a registry whose priorities are a dense
permutation but do not equal storage indices, `move_mod` with `delta = -1`
on the record holding priority 0 (stored last) swaps it with its storage
neighbour instead of being a no-op, so the claim as stated fails. -/
theorem C7_counterexample :
    densePerm ([⟨0, "a", "a.zip", "sa", true, 1, ModKind.file⟩,
        ⟨1, "b", "b.zip", "sb", true, 0, ModKind.file⟩] : List ModRecord)
    ∧ (⟨1, "b", "b.zip", "sb", true, 0, ModKind.file⟩ : ModRecord).priority = 0
    ∧ (move_mod (MState.mk [⟨0, "a", "a.zip", "sa", true, 1, ModKind.file⟩,
          ⟨1, "b", "b.zip", "sb", true, 0, ModKind.file⟩] []) "b" (-1) true).1
        ≠ MState.mk [⟨0, "a", "a.zip", "sa", true, 1, ModKind.file⟩,
            ⟨1, "b", "b.zip", "sb", true, 0, ModKind.file⟩] [] := by
  decide

theorem fsGet_fsPut (fs : Fs) (n : String) (c : Bool) :
    fsGet (fsPut fs n c) n = some c := by
  simp [fsGet, fsPut]

/-- C2 (corrected): when a copy fails partway through `install_mod_file` or
`install_mod_folder`, no registry record is created — but the partially
written destination payload is NOT removed: it stays in the mods folder,
and the failure is reported with a generic error dialog. -/
theorem C2_no_orphan_amended (st : MState) (p : String) :
    ((install_mod_file st p false true).1.mods = st.mods
      ∧ fsGet (install_mod_file st p false true).1.fs (basename p) = some false
      ∧ (install_mod_file st p false true).2 = OpResult.errorDialog)
    ∧ (fsHas st.fs (basename p) = false →
      (install_mod_folder st p false true).1.mods = st.mods
      ∧ fsGet (install_mod_folder st p false true).1.fs (basename p) = some false
      ∧ (install_mod_folder st p false true).2 = OpResult.errorDialog) := by
  constructor
  · refine ⟨rfl, ?_, rfl⟩
    exact fsGet_fsPut st.fs (basename p) false
  · intro hno
    have h1 : (install_mod_folder st p false true).1
        = { st with fs := fsPut st.fs (basename p) false } := by
      simp only [install_mod_folder, hno, Bool.false_eq_true, if_false]
    have h2 : (install_mod_folder st p false true).2 = OpResult.errorDialog := by
      simp only [install_mod_folder, hno, Bool.false_eq_true, if_false]
    refine ⟨?_, ?_, h2⟩
    · rw [h1]
    · rw [h1]
      exact fsGet_fsPut st.fs (basename p) false

theorem C2_no_orphan_amended_witness :
    fsHas (MState.mk [] []).fs (basename "/s/b") = false
    ∧ ((install_mod_folder (MState.mk [] []) "/s/b" false true).1.mods
        = (MState.mk [] []).mods
      ∧ fsGet (install_mod_folder (MState.mk [] []) "/s/b" false true).1.fs
          (basename "/s/b") = some false
      ∧ (install_mod_folder (MState.mk [] []) "/s/b" false true).2
          = OpResult.errorDialog) :=
  ⟨by decide, (C2_no_orphan_amended (MState.mk [] []) "/s/b").2 (by decide)⟩

/-- C2 counterexample: a file copy that fails partway leaves no registry
record (that half of the claim holds) but the partially written
destination file `a.zip` is still present in the mods folder afterward,
refuting the clause that it is removed. -/
theorem C2_counterexample :
    (install_mod_file (MState.mk [] []) "/s/a.zip" false true).1.mods = []
    ∧ fsGet (install_mod_file (MState.mk [] []) "/s/a.zip" false true).1.fs "a.zip"
        = some false := by
  decide

/-- C3 (corrected): `install_mod_file` performs no duplicate-path check at
all — with a working copy it unconditionally appends a new record, reports
success, and a source whose basename collides with an existing record's
`file_path` simply produces a second record claiming the same on-disk path
(the payload is silently overwritten).  Only `install_mod_folder` refuses
an existing destination, via `shutil.copytree`'s `FileExistsError`, caught
as a generic error dialog — not a typed `DuplicatePathError`. -/
theorem C3_duplicate_path_amended (st : MState) (p : String) :
    (∀ so : Bool, (install_mod_file st p true so).1.mods
        = st.mods ++ [mkFileRecord st.mods.length p])
    ∧ (install_mod_file st p true true).2 = OpResult.ok
    ∧ (basename p ∈ st.mods.map ModRecord.file_path →
        2 ≤ ((install_mod_file st p true true).1.mods.map ModRecord.file_path).count
          (basename p))
    ∧ (∀ c so : Bool, fsHas st.fs (basename p) = true →
        install_mod_folder st p c so = (st, OpResult.errorDialog)) := by
  refine ⟨?_, rfl, ?_, ?_⟩
  · intro so
    cases so <;> rfl
  · intro hmem
    have hm : (install_mod_file st p true true).1.mods
        = st.mods ++ [mkFileRecord st.mods.length p] := rfl
    rw [hm, List.map_append, List.count_append]
    have h1 : 0 < (st.mods.map ModRecord.file_path).count (basename p) :=
      List.count_pos_iff.mpr hmem
    have h2 : ([mkFileRecord st.mods.length p].map ModRecord.file_path).count (basename p)
        = 1 := by
      simp [mkFileRecord]
    omega
  · intro c so hdup
    simp only [install_mod_folder, hdup, if_true]

theorem C3_duplicate_path_amended_witness :
    basename "/x/m.zip"
      ∈ ([(⟨0, "m", "m.zip", "s", true, 0, ModKind.file⟩ : ModRecord)]).map
          ModRecord.file_path
    ∧ 2 ≤ ((install_mod_file
          (MState.mk [⟨0, "m", "m.zip", "s", true, 0, ModKind.file⟩] [("m.zip", true)])
          "/x/m.zip" true true).1.mods.map ModRecord.file_path).count
        (basename "/x/m.zip") :=
  ⟨by decide,
    (C3_duplicate_path_amended
      (MState.mk [⟨0, "m", "m.zip", "s", true, 0, ModKind.file⟩] [("m.zip", true)])
      "/x/m.zip").2.2.1 (by decide)⟩

/-- C3 counterexample: installing `/x/m.zip` while a record with
`file_path = "m.zip"` is live succeeds (`OpResult.ok`, no
`DuplicatePathError`) and leaves two records with the same `relativePath`,
refuting both the rejection and the uniqueness invariant. -/
theorem C3_counterexample :
    (install_mod_file
        (MState.mk [⟨0, "m", "m.zip", "s", true, 0, ModKind.file⟩] [("m.zip", true)])
        "/x/m.zip" true true).2 = OpResult.ok
    ∧ ((install_mod_file
        (MState.mk [⟨0, "m", "m.zip", "s", true, 0, ModKind.file⟩] [("m.zip", true)])
        "/x/m.zip" true true).1.mods.map ModRecord.file_path) = ["m.zip", "m.zip"] := by
  decide

theorem toggleFirst_getD_at_found (n : String) (d : ModRecord) :
    ∀ (l : List ModRecord) (i : Nat),
      l.findIdx? (fun m => m.name = n) = some i →
      (toggleFirst l n).getD i d
        = { l.getD i d with enabled := !(l.getD i d).enabled }
  | [], i, hfind => by cases hfind
  | a :: rest, i, hfind => by
      rw [List.findIdx?_cons] at hfind
      by_cases ha : a.name = n
      · rw [if_pos (by simpa using ha)] at hfind
        have hi : i = 0 := by simpa using hfind.symm
        subst hi
        simp [toggleFirst, ha]
      · rw [if_neg (by simpa using ha), List.findIdx?_succ] at hfind
        obtain ⟨j, hj, hij⟩ := Option.map_eq_some'.mp hfind
        subst hij
        simp only [toggleFirst, if_neg ha, List.getD_cons_succ]
        exact toggleFirst_getD_at_found n d rest j hj

/-- C4 (corrected): a failed `save_mods_data` does NOT roll the in-memory
registry back — the mutation survives.  An install keeps the appended
record and shows a generic error dialog (the `except` in
`install_mod_file`); a remove keeps the record deleted and shows the same
generic dialog; `toggle_mod` and `move_mod` do not even guard the save, so
the exception propagates while the flipped flag / swapped order remain.
No `PersistenceError` type exists anywhere in the code. -/
theorem C4_persistence_no_rollback (st : MState) :
    (∀ p : String,
      (install_mod_file st p true false).1.mods.length = st.mods.length + 1
      ∧ (install_mod_file st p true false).2 = OpResult.errorDialog)
    ∧ (∀ n i, findIndexByName st.mods n = some i →
      fsHas st.fs ((st.mods.getD i (mkFileRecord 0 "")).file_path) = false →
      (remove_mod st n true false).1.mods.length = st.mods.length - 1
      ∧ (remove_mod st n true false).2 = OpResult.errorDialog)
    ∧ (∀ n i d, findIndexByName st.mods n = some i →
      ((toggle_mod st n false).1.mods.getD i d).enabled
          = !(st.mods.getD i d).enabled
      ∧ (toggle_mod st n false).2 = OpResult.exn)
    ∧ (∀ (n : String) (i : Nat) (dir : Int), findIndexByName st.mods n = some i →
      (0 ≤ (i : Int) + dir ∧ (i : Int) + dir < (st.mods.length : Int)) →
      (move_mod st n dir false).1.mods.map ModRecord.id
          = (swapAt st.mods i ((i : Int) + dir).toNat).map ModRecord.id
      ∧ (move_mod st n dir false).2 = OpResult.exn) := by
  refine ⟨?_, ?_, ?_, ?_⟩
  · intro p
    constructor
    · show (st.mods ++ [mkFileRecord st.mods.length p]).length = st.mods.length + 1
      simp
    · rfl
  · intro n i hfind hab
    have hi : i < st.mods.length := findIndexByName_lt_length st.mods n i hfind
    have hmods : (remove_mod st n true false).1.mods = renumber (st.mods.eraseIdx i) := by
      simp only [remove_mod, hfind, hab, Bool.false_eq_true, if_false, if_true]
    have h2 : (remove_mod st n true false).2 = OpResult.errorDialog := by
      simp only [remove_mod, hfind, hab, Bool.false_eq_true, if_false, if_true]
    refine ⟨?_, h2⟩
    rw [hmods, renumber_length, List.length_eraseIdx, if_pos hi]
  · intro n i d hfind
    constructor
    · have hm : (toggle_mod st n false).1.mods = toggleFirst st.mods n := by
        rw [toggle_mod_fst]
      rw [hm, toggleFirst_getD_at_found n d st.mods i hfind]
    · rfl
  · intro n i dir hfind hcond
    have hmods : (move_mod st n dir false).1.mods
        = renumber (swapAt st.mods i ((i : Int) + dir).toNat) := by
      simp only [move_mod, hfind, if_pos hcond, Bool.false_eq_true, if_false]
    have h2 : (move_mod st n dir false).2 = OpResult.exn := by
      simp only [move_mod, hfind, if_pos hcond, Bool.false_eq_true, if_false]
    refine ⟨?_, h2⟩
    rw [hmods, renumber_map_id]

theorem C4_persistence_no_rollback_witness :
    findIndexByName (MState.mk [⟨0, "a", "a.zip", "s", true, 0, ModKind.file⟩] []).mods "a"
        = some 0
    ∧ (((toggle_mod (MState.mk [⟨0, "a", "a.zip", "s", true, 0, ModKind.file⟩] []) "a"
          false).1.mods.getD 0 (mkFileRecord 0 "")).enabled
        = !(((MState.mk [⟨0, "a", "a.zip", "s", true, 0, ModKind.file⟩] []).mods.getD 0
            (mkFileRecord 0 "")).enabled)
      ∧ (toggle_mod (MState.mk [⟨0, "a", "a.zip", "s", true, 0, ModKind.file⟩] []) "a"
          false).2 = OpResult.exn) :=
  ⟨by decide,
    (C4_persistence_no_rollback
        (MState.mk [⟨0, "a", "a.zip", "s", true, 0, ModKind.file⟩] [])).2.2.1
      "a" 0 (mkFileRecord 0 "") (by decide)⟩

/-- C4 counterexample: installing `/s/a.zip` into an empty registry with a
failing save leaves the new record in memory (the registry is not rolled
back to its empty pre-operation snapshot) and surfaces only a generic
error dialog, not a `PersistenceError`. -/
theorem C4_counterexample :
    (install_mod_file (MState.mk [] []) "/s/a.zip" true false).2 = OpResult.errorDialog
    ∧ (install_mod_file (MState.mk [] []) "/s/a.zip" true false).1.mods ≠ [] := by
  decide

theorem splitBar_ne_nil (s : List Char) : splitBar s ≠ [] := by
  cases s with
  | nil => simp [splitBar]
  | cons c rest =>
      simp only [splitBar]
      cases splitBar rest with
      | nil => simp
      | cons w ws =>
          by_cases hc : c = '|' <;> simp [hc]

theorem splitBar_append (w : List Char) (r : List Char) (w0 : List Char)
    (ws : List (List Char)) (hr : splitBar r = w0 :: ws) (hw : '|' ∉ w) :
    splitBar (w ++ r) = (w ++ w0) :: ws := by
  induction w with
  | nil => simpa using hr
  | cons c w' ih =>
      have hc : c ≠ '|' := fun h => hw (h ▸ List.mem_cons_self c w')
      have ih' := ih (fun h => hw (List.mem_cons_of_mem c h))
      simp only [List.cons_append, splitBar, List.append_eq]
      rw [ih']
      simp [hc]

theorem splitBar_joinBar : ∀ (l : List (List Char)), (∀ w ∈ l, '|' ∉ w) →
    l ≠ [] → splitBar (joinBar l) = l
  | [], _, hne => absurd rfl hne
  | [w], h, _ => by
      have : splitBar (w ++ []) = (w ++ []) :: [] :=
        splitBar_append w [] [] [] rfl (h w (List.mem_singleton_self w))
      simpa using this
  | w :: w' :: ws, h, _ => by
      have hrest : splitBar (joinBar (w' :: ws)) = w' :: ws :=
        splitBar_joinBar (w' :: ws)
          (fun x hx => h x (List.mem_cons_of_mem w hx))
          (List.cons_ne_nil w' ws)
      have hbar : splitBar ('|' :: joinBar (w' :: ws)) = [] :: w' :: ws := by
        simp only [splitBar, hrest]
        simp
      have := splitBar_append w ('|' :: joinBar (w' :: ws)) [] (w' :: ws) hbar
        (h w (List.mem_cons_self w (w' :: ws)))
      simpa [joinBar] using this

theorem joinBar_ne_nil : ∀ (l : List (List Char)), (∀ w ∈ l, w ≠ []) →
    l ≠ [] → joinBar l ≠ []
  | [], _, hne => absurd rfl hne
  | [w], h, _ => by simpa [joinBar] using h w (List.mem_singleton_self w)
  | w :: w' :: ws, _, _ => by
      simp only [joinBar]
      intro hcontra
      exact absurd (List.append_eq_nil.mp hcontra).2 (List.cons_ne_nil _ _)

/-- A value that survives `configparser` storage verbatim: it contains no
`'%'` (which `before_set` rejects or `before_get` rewrites), no line break
(which the line-oriented INI text does not preserve), and no surrounding
whitespace (which the parser strips). -/
def iniSafeValue (w : List Char) : Prop :=
  '%' ∉ w ∧ '\n' ∉ w ∧ '\r' ∉ w ∧ pyStrip w = w

instance (w : List Char) : Decidable (iniSafeValue w) :=
  inferInstanceAs (Decidable (_ ∧ _ ∧ _ ∧ _))

/-- A path that survives the `'|'`-delimited round trip of a recent or
favorites list: nonempty, free of the delimiter, and `configparser`-safe. -/
def goodPath (w : List Char) : Prop :=
  w ≠ [] ∧ '|' ∉ w ∧ iniSafeValue w

instance (w : List Char) : Decidable (goodPath w) :=
  inferInstanceAs (Decidable (_ ∧ _ ∧ _))

theorem removeDoublePercent_of_not_mem : ∀ (v : List Char), '%' ∉ v →
    removeDoublePercent v = v
  | [], _ => rfl
  | [_], _ => rfl
  | c :: c2 :: rest, h => by
      have hc : ¬(c = '%' ∧ c2 = '%') := by
        rintro ⟨he, -⟩
        exact h (he ▸ List.mem_cons_self c _)
      have ih := removeDoublePercent_of_not_mem (c2 :: rest)
        (fun hm => h (List.mem_cons_of_mem c hm))
      rw [removeDoublePercent, if_neg hc, ih]

theorem removeKeyRefsAux_of_not_mem : ∀ (gas : Nat) (v : List Char), '%' ∉ v →
    removeKeyRefsAux gas v = v
  | gas, [], _ => by cases gas <;> rfl
  | 0, _ :: _, _ => rfl
  | gas + 1, c :: rest, h => by
      have hc : ¬(c = '%' ∧ rest.head? = some '(') := by
        rintro ⟨he, -⟩
        exact h (he ▸ List.mem_cons_self c rest)
      have ih := removeKeyRefsAux_of_not_mem gas rest
        (fun hm => h (List.mem_cons_of_mem c hm))
      rw [removeKeyRefsAux, if_neg hc, ih]

theorem beforeSetOk_of_not_mem (v : List Char) (h : '%' ∉ v) :
    beforeSetOk v = true := by
  rw [beforeSetOk, removeDoublePercent_of_not_mem v h, removeKeyRefs,
    removeKeyRefsAux_of_not_mem v.length v h]
  exact decide_eq_true h

theorem interpSomeAux_of_not_mem (map : List (List Char × List Char)) :
    ∀ (gas depth : Nat) (v : List Char), '%' ∉ v → v.length < gas →
      interpSomeAux map gas depth v = some v
  | 0, _, v, _, hlt => absurd hlt (by omega)
  | _ + 1, _, [], _, _ => rfl
  | gas + 1, depth, c :: rest, h, hlt => by
      have hc : ¬(c = '%') := fun he => h (he ▸ List.mem_cons_self c rest)
      have ih := interpSomeAux_of_not_mem map gas depth rest
        (fun hm => h (List.mem_cons_of_mem c hm))
        (by simp only [List.length_cons] at hlt; omega)
      rw [interpSomeAux, if_neg hc, ih]
      rfl

theorem before_get_of_not_mem (map : List (List Char × List Char))
    (v : List Char) (h : '%' ∉ v) : before_get map v = some v := by
  rw [before_get]
  exact interpSomeAux_of_not_mem map _ 1 v h (by omega)

theorem lineSafe_of_iniSafe (v : List Char) (h : iniSafeValue v) :
    lineSafe v = true := by
  rw [lineSafe, Bool.and_eq_true]
  exact ⟨decide_eq_true h.2.1, decide_eq_true h.2.2.1⟩

theorem joinBar_not_mem : ∀ (l : List (List Char)) (c : Char), c ≠ '|' →
    (∀ w ∈ l, c ∉ w) → c ∉ joinBar l
  | [], _, _, _ => List.not_mem_nil _
  | [w], c, _, h => h w (List.mem_singleton_self w)
  | w :: w' :: ws, c, hc, h => by
      have ih := joinBar_not_mem (w' :: ws) c hc
        (fun x hx => h x (List.mem_cons_of_mem w hx))
      intro hmem
      rcases List.mem_append.mp hmem with hin | hin
      · exact h w (List.mem_cons_self w _) hin
      · rcases List.mem_cons.mp hin with he | hin2
        · exact hc he
        · exact ih hin2

theorem head_not_ws_of_pyStrip_eq (w : List Char) (c : Char)
    (h : pyStrip w = w) (hc : w.head? = some c) : c.isWhitespace = false := by
  cases hws : c.isWhitespace with
  | false => rfl
  | true =>
      exfalso
      obtain ⟨rest, hw⟩ : ∃ rest, w = c :: rest := by
        cases w with
        | nil => cases hc
        | cons a r =>
            refine ⟨r, ?_⟩
            injection hc with h1
            rw [h1]
      subst hw
      have hdrop : (c :: rest).dropWhile Char.isWhitespace
          = rest.dropWhile Char.isWhitespace := by
        rw [List.dropWhile_cons, if_pos hws]
      have h1 : (rest.dropWhile Char.isWhitespace).length ≤ rest.length :=
        (List.dropWhile_suffix _).length_le
      have h2 : ((rest.dropWhile Char.isWhitespace).reverse.dropWhile
            Char.isWhitespace).length
          ≤ (rest.dropWhile Char.isWhitespace).reverse.length :=
        (List.dropWhile_suffix _).length_le
      have hlen := congrArg List.length h
      rw [pyStrip, hdrop] at hlen
      simp only [List.length_reverse, List.length_cons] at hlen h2
      omega

theorem getLast_not_ws_of_pyStrip_eq (w : List Char) (c : Char)
    (h : pyStrip w = w) (hc : w.getLast? = some c) : c.isWhitespace = false := by
  cases hws : c.isWhitespace with
  | false => rfl
  | true =>
      exfalso
      have hwne : w ≠ [] := by
        intro he
        rw [he] at hc
        cases hc
      by_cases hdn : w.dropWhile Char.isWhitespace = []
      · have hempty : pyStrip w = [] := by rw [pyStrip, hdn]; rfl
        rw [h] at hempty
        exact hwne hempty
      · obtain ⟨t, ht⟩ := List.dropWhile_suffix (l := w) Char.isWhitespace
        have hgl : (w.dropWhile Char.isWhitespace).getLast? = some c := by
          have hx : (t ++ w.dropWhile Char.isWhitespace).getLast? = some c := by
            rw [ht]; exact hc
          rw [List.getLast?_append] at hx
          cases hgd : (w.dropWhile Char.isWhitespace).getLast? with
          | none => exact absurd (List.getLast?_eq_none_iff.mp hgd) hdn
          | some x =>
              rw [hgd, Option.or_some] at hx
              exact hx
        have hrev : (w.dropWhile Char.isWhitespace).reverse.head? = some c := by
          rw [List.head?_reverse]
          exact hgl
        obtain ⟨r2, hr2⟩ : ∃ r2,
            (w.dropWhile Char.isWhitespace).reverse = c :: r2 := by
          cases hdr : (w.dropWhile Char.isWhitespace).reverse with
          | nil => rw [hdr] at hrev; cases hrev
          | cons a r =>
              refine ⟨r, ?_⟩
              rw [hdr] at hrev
              injection hrev with h1
              rw [h1]
        have hstrip : pyStrip w = (r2.dropWhile Char.isWhitespace).reverse := by
          rw [pyStrip, hr2, List.dropWhile_cons, if_pos hws]
        have h1 : (r2.dropWhile Char.isWhitespace).length ≤ r2.length :=
          (List.dropWhile_suffix _).length_le
        have hd_len : (w.dropWhile Char.isWhitespace).length = r2.length + 1 := by
          rw [← List.length_reverse (w.dropWhile Char.isWhitespace), hr2]
          rfl
        have hdw : (w.dropWhile Char.isWhitespace).length ≤ w.length :=
          (List.dropWhile_suffix _).length_le
        have hlen := congrArg List.length h
        rw [hstrip] at hlen
        simp only [List.length_reverse] at hlen
        omega

theorem pyStrip_eq_self_of_edges (v : List Char)
    (hh : ∀ c, v.head? = some c → c.isWhitespace = false)
    (hl : ∀ c, v.getLast? = some c → c.isWhitespace = false) :
    pyStrip v = v := by
  have h1 : v.dropWhile Char.isWhitespace = v := by
    cases hv : v with
    | nil => rfl
    | cons c rest =>
        rw [List.dropWhile_cons, if_neg]
        rw [hh c (by rw [hv]; rfl)]
        simp
  have h2 : v.reverse.dropWhile Char.isWhitespace = v.reverse := by
    cases hv : v.reverse with
    | nil => rfl
    | cons c rest =>
        have hcl : v.getLast? = some c := by
          rw [← List.head?_reverse, hv]
          rfl
        rw [List.dropWhile_cons, if_neg]
        rw [hl c hcl]
        simp
  rw [pyStrip, h1, h2, List.reverse_reverse]

theorem joinBar_head? : ∀ (w : List Char) (ws' : List (List Char)), w ≠ [] →
    (joinBar (w :: ws')).head? = w.head?
  | _, [], _ => rfl
  | [], _ :: _, hne => absurd rfl hne
  | c :: w2, x :: xs, _ => by
      show ((c :: w2) ++ '|' :: joinBar (x :: xs)).head? = (c :: w2).head?
      rw [List.cons_append]
      rfl

theorem joinBar_getLast? : ∀ (l : List (List Char)) (w : List Char),
    (∀ x ∈ l, x ≠ []) → l.getLast? = some w →
    (joinBar l).getLast? = w.getLast?
  | [], _, _, hl => by cases hl
  | [x], w, _, hl => by
      have hxw : x = w := by simpa using hl
      subst hxw
      rfl
  | x :: y :: ys, w, hx, hl => by
      have hl' : (y :: ys).getLast? = some w := by
        rw [List.getLast?_cons_cons] at hl
        exact hl
      have hall : ∀ a ∈ y :: ys, a ≠ [] :=
        fun a ha => hx a (List.mem_cons_of_mem x ha)
      have ih := joinBar_getLast? (y :: ys) w hall hl'
      have hJ : joinBar (y :: ys) ≠ [] :=
        joinBar_ne_nil (y :: ys) hall (List.cons_ne_nil y ys)
      have hwne : w ≠ [] := hx w (List.mem_of_mem_getLast? (by simp [hl]))
      show ((x : List Char) ++ '|' :: joinBar (y :: ys)).getLast? = w.getLast?
      rw [List.getLast?_append]
      have hbar : ('|' :: joinBar (y :: ys)).getLast?
          = (joinBar (y :: ys)).getLast? := by
        cases hJJ : joinBar (y :: ys) with
        | nil => exact absurd hJJ hJ
        | cons a as => rw [List.getLast?_cons_cons]
      rw [hbar, ih]
      cases hw : w.getLast? with
      | none => exact absurd (List.getLast?_eq_none_iff.mp hw) hwne
      | some z => rw [Option.or_some]

theorem pyStrip_joinBar (l : List (List Char))
    (h : ∀ w ∈ l, w ≠ [] ∧ pyStrip w = w) :
    pyStrip (joinBar l) = joinBar l := by
  apply pyStrip_eq_self_of_edges
  · intro c hc
    cases l with
    | nil => cases hc
    | cons w ws =>
        have hw := h w (List.mem_cons_self w ws)
        rw [joinBar_head? w ws hw.1] at hc
        exact head_not_ws_of_pyStrip_eq w c hw.2 hc
  · intro c hc
    cases hl : l.getLast? with
    | none =>
        rw [List.getLast?_eq_none_iff] at hl
        subst hl
        cases hc
    | some w =>
        have hwmem : w ∈ l := List.mem_of_mem_getLast? (by simp [hl])
        have hw := h w hwmem
        rw [joinBar_getLast? l w (fun x hx => (h x hx).1) hl] at hc
        exact getLast_not_ws_of_pyStrip_eq w c hw.2 hc

theorem iniSafe_joinBar (l : List (List Char)) (h : ∀ w ∈ l, goodPath w) :
    iniSafeValue (joinBar l) :=
  ⟨joinBar_not_mem l '%' (by decide) (fun w hw => (h w hw).2.2.1),
   joinBar_not_mem l '\n' (by decide) (fun w hw => (h w hw).2.2.2.1),
   joinBar_not_mem l '\r' (by decide) (fun w hw => (h w hw).2.2.2.2.1),
   pyStrip_joinBar l (fun w hw => ⟨(h w hw).1, (h w hw).2.2.2.2.2⟩)⟩

theorem iniSafe_saveRecentField (l : List (List Char))
    (h : ∀ w ∈ l, goodPath w) : iniSafeValue (saveRecentField l) := by
  rw [saveRecentField]
  exact iniSafe_joinBar _ (fun w hw => h w ((List.take_sublist 10 l).mem hw))

theorem iniSafe_saveFavField (l : List (List Char))
    (h : ∀ w ∈ l, goodPath w) : iniSafeValue (saveFavField l) :=
  iniSafe_joinBar l h

theorem loadRecentField_saveRecentField (l : List (List Char))
    (h : ∀ w ∈ l, goodPath w) (hlen : l.length ≤ 10) :
    loadRecentField (saveRecentField l) = l := by
  cases hl : l with
  | nil => rfl
  | cons w ws =>
      rw [← hl]
      have hne : l ≠ [] := by rw [hl]; exact List.cons_ne_nil w ws
      have htake : l.take 10 = l := List.take_of_length_le hlen
      have hjoin : joinBar l ≠ [] :=
        joinBar_ne_nil l (fun x hx => (h x hx).1) hne
      rw [saveRecentField, htake, loadRecentField, if_neg hjoin,
        splitBar_joinBar l (fun x hx => (h x hx).2.1) hne]
      have hmap : l.map pyStrip = l := by
        have := List.map_congr_left (f := pyStrip) (g := id)
          (fun x hx => (h x hx).2.2.2.2.2)
        simpa using this
      rw [hmap]
      rw [List.filter_eq_self.mpr]
      intro x hx
      simpa using (h x hx).1

theorem loadFavField_saveFavField (l : List (List Char))
    (h : ∀ w ∈ l, goodPath w) :
    loadFavField (saveFavField l) = l := by
  cases hl : l with
  | nil => rfl
  | cons w ws =>
      rw [← hl]
      have hne : l ≠ [] := by rw [hl]; exact List.cons_ne_nil w ws
      have hjoin : joinBar l ≠ [] :=
        joinBar_ne_nil l (fun x hx => (h x hx).1) hne
      rw [saveFavField, loadFavField, if_neg hjoin,
        splitBar_joinBar l (fun x hx => (h x hx).2.1) hne]
      have hmap : l.map pyStrip = l := by
        have := List.map_congr_left (f := pyStrip) (g := id)
          (fun x hx => (h x hx).2.2.2.2.2)
        simpa using this
      rw [hmap]
      rw [List.filter_eq_self.mpr]
      intro x hx
      simpa using (h x hx).1

theorem decodeMod_encodeMod (m : ModRecord) : decodeMod (encodeMod m) = some m := by
  obtain ⟨i, n, fp, op, en, pr, k⟩ := m
  cases k <;> rfl

theorem load_save_mods_store (mods : List ModRecord) :
    load_mods_store (save_mods_store mods) = some mods := by
  induction mods with
  | nil => rfl
  | cons m rest ih =>
      simp only [save_mods_store, List.map_cons, load_mods_store, List.mapM_cons,
        decodeMod_encodeMod]
      simp only [save_mods_store, load_mods_store] at ih
      rw [ih]
      rfl

/-- C6 (corrected): persisting the catalog and the mods store and
reloading both is the identity — preserving recent-path order, favorites,
and the record list with its priorities — provided every stored path is
nonempty, free of the `'|'` delimiter, free of `'%'` (which configparser's
interpolation rejects or rewrites), free of line breaks (which the INI
text transforms), and has no surrounding whitespace, and each recent list
holds at most the 10-entry cap.  (A path containing `'|'` is split into
several entries on reload, which is the counterexample to the
unconditional claim.) -/
theorem C6_round_trip_amended (c : Catalog) (mods : List ModRecord)
    (hgp : iniSafeValue c.game_path) (hmf : iniSafeValue c.mods_folder)
    (hrg : ∀ w ∈ c.recent_game, goodPath w) (hrgl : c.recent_game.length ≤ 10)
    (hrm : ∀ w ∈ c.recent_mods, goodPath w) (hrml : c.recent_mods.length ≤ 10)
    (hrf : ∀ w ∈ c.recent_files, goodPath w) (hrfl : c.recent_files.length ≤ 10)
    (hfg : ∀ w ∈ c.fav_game, goodPath w)
    (hfm : ∀ w ∈ c.fav_mods, goodPath w) :
    (save_config c).bind load_config = some c
    ∧ load_mods_store (save_mods_store mods) = some mods := by
  refine ⟨?_, load_save_mods_store mods⟩
  obtain ⟨gp, mf, rg, rm, rf, fg, fm⟩ := c
  simp only at hgp hmf hrg hrm hrf hfg hfm hrgl hrml hrfl
  have hv3 : iniSafeValue (saveRecentField rg) := iniSafe_saveRecentField rg hrg
  have hv4 : iniSafeValue (saveRecentField rm) := iniSafe_saveRecentField rm hrm
  have hv5 : iniSafeValue (saveRecentField rf) := iniSafe_saveRecentField rf hrf
  have hv6 : iniSafeValue (saveFavField fg) := iniSafe_saveFavField fg hfg
  have hv7 : iniSafeValue (saveFavField fm) := iniSafe_saveFavField fm hfm
  have hsave : save_config ⟨gp, mf, rg, rm, rf, fg, fm⟩
      = some ⟨gp, mf, saveRecentField rg, saveRecentField rm, saveRecentField rf,
          saveFavField fg, saveFavField fm⟩ := by
    simp only [save_config]
    rw [if_pos ⟨beforeSetOk_of_not_mem gp hgp.1, beforeSetOk_of_not_mem mf hmf.1,
      beforeSetOk_of_not_mem _ hv3.1, beforeSetOk_of_not_mem _ hv4.1,
      beforeSetOk_of_not_mem _ hv5.1, beforeSetOk_of_not_mem _ hv6.1,
      beforeSetOk_of_not_mem _ hv7.1⟩]
  have hparsed : parsedStore ⟨gp, mf, saveRecentField rg, saveRecentField rm,
        saveRecentField rf, saveFavField fg, saveFavField fm⟩
      = some ⟨gp, mf, saveRecentField rg, saveRecentField rm, saveRecentField rf,
          saveFavField fg, saveFavField fm⟩ := by
    simp only [parsedStore]
    rw [if_pos ⟨lineSafe_of_iniSafe _ hgp, lineSafe_of_iniSafe _ hmf,
      lineSafe_of_iniSafe _ hv3, lineSafe_of_iniSafe _ hv4,
      lineSafe_of_iniSafe _ hv5, lineSafe_of_iniSafe _ hv6,
      lineSafe_of_iniSafe _ hv7⟩]
    rw [hgp.2.2.2, hmf.2.2.2, hv3.2.2.2, hv4.2.2.2, hv5.2.2.2, hv6.2.2.2,
      hv7.2.2.2]
  rw [hsave, Option.some_bind]
  simp only [load_config, hparsed]
  rw [before_get_of_not_mem _ gp hgp.1, before_get_of_not_mem _ mf hmf.1,
    before_get_of_not_mem _ _ hv3.1, before_get_of_not_mem _ _ hv4.1,
    before_get_of_not_mem _ _ hv5.1, before_get_of_not_mem _ _ hv6.1,
    before_get_of_not_mem _ _ hv7.1]
  simp only [loadRecentField_saveRecentField rg hrg hrgl,
    loadRecentField_saveRecentField rm hrm hrml,
    loadRecentField_saveRecentField rf hrf hrfl,
    loadFavField_saveFavField fg hfg, loadFavField_saveFavField fm hfm]

theorem C6_round_trip_amended_witness :
    iniSafeValue (Catalog.mk ['g'] ['m'] [['a']] [] [['b', 'c']] [['f']] []).game_path
    ∧ ((save_config (Catalog.mk ['g'] ['m'] [['a']] [] [['b', 'c']] [['f']] [])).bind
          load_config
        = some (Catalog.mk ['g'] ['m'] [['a']] [] [['b', 'c']] [['f']] [])
      ∧ load_mods_store (save_mods_store
          [(⟨0, "m", "m.zip", "s", true, 0, ModKind.file⟩ : ModRecord)])
        = some [(⟨0, "m", "m.zip", "s", true, 0, ModKind.file⟩ : ModRecord)]) :=
  ⟨by decide,
    C6_round_trip_amended (Catalog.mk ['g'] ['m'] [['a']] [] [['b', 'c']] [['f']] [])
      [⟨0, "m", "m.zip", "s", true, 0, ModKind.file⟩]
      (by decide) (by decide) (by decide) (by decide) (by decide) (by decide)
      (by decide) (by decide) (by decide) (by decide)⟩

/-- C6 counterexample: a recent-files entry whose path contains the `'|'`
delimiter (legal in POSIX filenames) is accepted by `save_config` but
split into two entries on reload, so persist-then-reload is not the
identity on the catalog. -/
theorem C6_counterexample :
    (save_config (Catalog.mk [] [] [] [] [['a', '|', 'b']] [] [])).bind load_config
      ≠ some (Catalog.mk [] [] [] [] [['a', '|', 'b']] [] []) := by
  decide
